import Mathlib

/-!
# Verification of `scripts/significant_bases_by_randomisation.py`

This file gives a shallow embedding of the `main` function of
`significant_bases_by_randomisation.py` and proves properties of it.

The script's own code (argument handling, worker-pool setup, iterator and
signal-source selection, and the pandas post-processing pipeline on the result
table) is translated directly.  The `iCLIP` library function
`get_crosslink_fdr_by_randomisation` is not part of the repository sources, so
it is modelled from the specification (see its doc comment); its actual
per-base computation is abstracted as an injected `ComputeFn` argument, which
also lets us state that early exits happen before any FDR computation.
-/

namespace SigBases

/-- A row of the result table returned by the FDR computation, after
`reset_index` renames the columns to
`["contig", "start", "FDR", "depth", "strand"]` (line 166-167 of the script). -/
structure ResultRecord where
  contig : String
  start : Int
  fdr : ℚ
  depth : ℚ
  strand : String
deriving DecidableEq

/-- The deduplication / final-sort key `["contig", "start", "strand"]`
(lines 171-172). -/
def keyOf (r : ResultRecord) : String × Int × String :=
  (r.contig, r.start, r.strand)

/-- The comparator realised by
`results.sort_values(by=["FDR", "depth"], ascending=[True, False])`
(line 170): primary key FDR ascending, secondary key depth descending. -/
def fdrDepthLe (a b : ResultRecord) : Prop :=
  a.fdr < b.fdr ∨ (a.fdr = b.fdr ∧ b.depth ≤ a.depth)

instance fdrDepthLe.instDecidable : DecidableRel fdrDepthLe := fun a b =>
  inferInstanceAs (Decidable (a.fdr < b.fdr ∨ (a.fdr = b.fdr ∧ b.depth ≤ a.depth)))

/-- The comparator realised by
`results.sort_values(["contig", "start", "strand"])` (line 172): ascending
lexicographic order on the key columns, strings ordered as in Python
(lexicographically by code point). -/
def keyLe (a b : ResultRecord) : Prop :=
  a.contig < b.contig ∨
    (a.contig = b.contig ∧
      (a.start < b.start ∨ (a.start = b.start ∧ a.strand ≤ b.strand)))

instance keyLe.instDecidable : DecidableRel keyLe := fun a b =>
  inferInstanceAs (Decidable (a.contig < b.contig ∨
    (a.contig = b.contig ∧
      (a.start < b.start ∨ (a.start = b.start ∧ a.strand ≤ b.strand)))))

/-- Helper for `drop_duplicates`: scan the list front to back, keeping a row
only when its key has not been seen yet. -/
def dropDupAux (seen : List (String × Int × String)) :
    List ResultRecord → List ResultRecord
  | [] => []
  | r :: rs =>
    if keyOf r ∈ seen then dropDupAux seen rs
    else r :: dropDupAux (keyOf r :: seen) rs

/-- `results.drop_duplicates(["contig", "start", "strand"])` (line 171):
pandas keeps the first occurrence of each key. -/
def drop_duplicates (l : List ResultRecord) : List ResultRecord :=
  dropDupAux [] l

/-- `results = results[results.fdr <= options.threshold]` (line 164). -/
def filterThreshold (t : ℚ) (tbl : List ResultRecord) : List ResultRecord :=
  tbl.filter (fun r => decide (r.fdr ≤ t))

/-- Lines 164-172 of the script: threshold filter, sort by (FDR asc, depth
desc), drop duplicate keys keeping the first row, then sort by key. -/
def processTable (t : ℚ) (tbl : List ResultRecord) : List ResultRecord :=
  List.insertionSort keyLe
    (drop_duplicates (List.insertionSort fdrDepthLe (filterThreshold t tbl)))

/-- The script's command line options (lines 92-130).  `Option.none` models an
option left at its `None` default. -/
structure Options where
  bam : Option String
  plus_wig : Option String
  minus_wig : Option String
  bedfile : Option String
  spread : Int
  rands : Int
  threshold : ℚ
  feature : String
  proc : Option Int
  centre : Bool
deriving DecidableEq

/-- The three possible `iCLIP.make_getter` calls issued by lines 150-157; the
constructor records which arguments the script passes. -/
inductive SignalGetter where
  | bamGetter (path : String) (centre : Bool)
  | wigGetter (plus : String) (minus : Option String)
  | bedGetter (path : String)
deriving DecidableEq

/-- A `multiprocessing.Pool(options.proc)` handle (line 134). -/
structure WorkerPool where
  processes : Int
deriving DecidableEq

/-- The values admitted by the parser for `--feature`
(`choices=["transcript", "gene"]`, line 117). -/
def featureChoices : List String :=
  ["transcript", "gene"]

/-- The iterator chosen at lines 143-148. -/
inductive GtfIterator where
  | flatGene
  | transcript
deriving DecidableEq

/-- Lines 143-148: choose the GTF iterator from `options.feature`, raising
`ValueError` (modelled as `Except.error`) on any other value. -/
def selectIterator (feature : String) : Except String GtfIterator :=
  if feature = "gene" then Except.ok GtfIterator.flatGene
  else if feature = "transcript" then Except.ok GtfIterator.transcript
  else Except.error ("Unknown feature type " ++ feature)

/-- Lines 131-141: a pool is created only when `options.proc` is given; if
importing `multiprocessing` fails (`importOk = false`) the script warns and
falls back to `pool = None`; with no process count it uses `pool = None`. -/
def setupPool (proc : Option Int) (importOk : Bool) : Option WorkerPool :=
  match proc with
  | some n => if importOk then some ⟨n⟩ else none
  | none => none

/-- Lines 150-159: the `if options.bam / elif options.plus_wig /
elif options.bedfile / else` chain choosing the signal source, `none` meaning
the script hits the `E.error` + `sys.exit(1)` branch. -/
def selectSignalSource (o : Options) : Option SignalGetter :=
  match o.bam with
  | some b => some (SignalGetter.bamGetter b o.centre)
  | none =>
    match o.plus_wig with
    | some p => some (SignalGetter.wigGetter p o.minus_wig)
    | none =>
      match o.bedfile with
      | some f => some (SignalGetter.bedGetter f)
      | none => none

/-- The abstracted per-base FDR computation of the `iCLIP` library (not part
of the repository sources): from the iterator, signal getter, randomisation
count, spread and optional pool it produces the result table. -/
def ComputeFn : Type :=
  GtfIterator → SignalGetter → Int → Int → Option WorkerPool → List ResultRecord

/-- Modelled from the spec: `iCLIP.get_crosslink_fdr_by_randomisation`
(called at lines 161-162) is not under the repository sources.  Per the
specification's error-handling design, `R=0 or spread<0` is a fatal
configuration error (FDR undefined / smoothing undefined); otherwise the
per-base FDR table is produced by the abstracted computation. -/
def get_crosslink_fdr_by_randomisation (compute : ComputeFn)
    (iterator : GtfIterator) (bam : SignalGetter) (rands spread : Int)
    (pool : Option WorkerPool) : Except String (List ResultRecord) :=
  if rands = 0 ∨ spread < 0 then
    Except.error "fatal configuration error: FDR undefined / smoothing undefined"
  else
    Except.ok (compute iterator bam rands spread pool)

/-- The outcome of a run of `main`: `sys.exit` with a code, an uncaught
fatal error, or the processed result table ready for emission. -/
inductive MainOutcome where
  | exited (code : Int)
  | raised (msg : String)
  | finished (table : List ResultRecord)
deriving DecidableEq

/-- Lines 131-172 of `main`, after option parsing: pool setup, iterator
selection, signal-source selection (exiting with status 1 when no source is
configured), the FDR computation, and the post-processing pipeline. -/
def mainRun (o : Options) (importOk : Bool) (compute : ComputeFn) : MainOutcome :=
  let pool := setupPool o.proc importOk
  match selectIterator o.feature with
  | Except.error msg => MainOutcome.raised msg
  | Except.ok iterator =>
    match selectSignalSource o with
    | none => MainOutcome.exited 1
    | some bam =>
      match get_crosslink_fdr_by_randomisation compute iterator bam
          o.rands o.spread pool with
      | Except.error msg => MainOutcome.raised msg
      | Except.ok results => MainOutcome.finished (processTable o.threshold results)

/-- `-numpy.log10(x)` (line 177), idealised over the reals. -/
noncomputable def neglog10 (q : ℚ) : ℝ :=
  -(Real.logb 10 (q : ℝ))

/-- A row of the emitted table after lines 174-177: columns
`["contig", "start", "end", "FDR", "depth", "strand"]`, in this order
(`end` is `stop` here, `end` being reserved).  The `FDR` column holds the
`-log10`-transformed score. -/
structure OutRow where
  contig : String
  start : Int
  stop : Int
  score : ℝ
  depth : ℚ
  strand : String

/-- Lines 174-177: `end = start + 1` is appended, the six output columns are
selected in order, and the FDR column is replaced by `-log10(FDR)`. -/
noncomputable def toOutRow (r : ResultRecord) : OutRow :=
  { contig := r.contig, start := r.start, stop := r.start + 1,
    score := neglog10 r.fdr, depth := r.depth, strand := r.strand }

/-- The table as emitted, one `OutRow` per processed `ResultRecord`. -/
noncomputable def emit (l : List ResultRecord) : List OutRow :=
  l.map toOutRow

/-- One CSV row: the six cells in column order.  Number formatting is
abstracted by the injected `showScore` / `showDepth` printers. -/
def renderRow (showScore : ℝ → String) (showDepth : ℚ → String)
    (row : OutRow) : List String :=
  [row.contig, toString row.start, toString row.stop,
    showScore row.score, showDepth row.depth, row.strand]

/-- `results.to_csv(options.stdout, header=False, index=False, sep="\t")`
(line 178): every row becomes its cells joined by tabs plus a newline; with
`header=False` no header line is written, so the output is exactly the
concatenation of the data rows. -/
def toCsv (render : OutRow → List String) (rows : List OutRow) : String :=
  String.join (rows.map (fun row => String.intercalate "\t" (render row) ++ "\n"))

instance : IsTotal ResultRecord fdrDepthLe := by
  constructor
  intro a b
  rcases lt_trichotomy a.fdr b.fdr with h | h | h
  · exact Or.inl (Or.inl h)
  · rcases le_total a.depth b.depth with hd | hd
    · exact Or.inr (Or.inr ⟨h.symm, hd⟩)
    · exact Or.inl (Or.inr ⟨h, hd⟩)
  · exact Or.inr (Or.inl h)

instance : IsTrans ResultRecord fdrDepthLe := by
  constructor
  intro a b c hab hbc
  rcases hab with hab | ⟨hab, hab'⟩
  · rcases hbc with hbc | ⟨hbc, _⟩
    · exact Or.inl (hab.trans hbc)
    · exact Or.inl (hbc ▸ hab)
  · rcases hbc with hbc | ⟨hbc, hbc'⟩
    · exact Or.inl (hab ▸ hbc)
    · exact Or.inr ⟨hab.trans hbc, hbc'.trans hab'⟩

instance : IsTotal ResultRecord keyLe := by
  constructor
  intro a b
  rcases lt_trichotomy a.contig b.contig with h | h | h
  · exact Or.inl (Or.inl h)
  · rcases lt_trichotomy a.start b.start with h2 | h2 | h2
    · exact Or.inl (Or.inr ⟨h, Or.inl h2⟩)
    · rcases le_total a.strand b.strand with h3 | h3
      · exact Or.inl (Or.inr ⟨h, Or.inr ⟨h2, h3⟩⟩)
      · exact Or.inr (Or.inr ⟨h.symm, Or.inr ⟨h2.symm, h3⟩⟩)
    · exact Or.inr (Or.inr ⟨h.symm, Or.inl h2⟩)
  · exact Or.inr (Or.inl h)

instance : IsTrans ResultRecord keyLe := by
  constructor
  intro a b c hab hbc
  rcases hab with hab | ⟨hab, hab'⟩
  · rcases hbc with hbc | ⟨hbc, _⟩
    · exact Or.inl (hab.trans hbc)
    · exact Or.inl (hbc ▸ hab)
  · rcases hbc with hbc | ⟨hbc, hbc'⟩
    · exact Or.inl (hab ▸ hbc)
    · refine Or.inr ⟨hab.trans hbc, ?_⟩
      rcases hab' with h2 | ⟨h2, h3⟩
      · rcases hbc' with h4 | ⟨h4, _⟩
        · exact Or.inl (h2.trans h4)
        · exact Or.inl (h4 ▸ h2)
      · rcases hbc' with h4 | ⟨h4, h5⟩
        · exact Or.inl (h2 ▸ h4)
        · exact Or.inr ⟨h2.trans h4, h3.trans h5⟩

theorem mem_of_mem_dropDupAux {r : ResultRecord} :
    ∀ (l : List ResultRecord) (seen : List (String × Int × String)),
      r ∈ dropDupAux seen l → r ∈ l := by
  intro l
  induction l with
  | nil => intro seen h; simp [dropDupAux] at h
  | cons a rs ih =>
    intro seen h
    by_cases hk : keyOf a ∈ seen
    · rw [dropDupAux, if_pos hk] at h
      exact List.mem_cons_of_mem _ (ih _ h)
    · rw [dropDupAux, if_neg hk] at h
      rcases List.mem_cons.mp h with rfl | h
      · exact List.mem_cons_self _ _
      · exact List.mem_cons_of_mem _ (ih _ h)

theorem mem_filterThreshold_of_mem_processTable {t : ℚ}
    {tbl : List ResultRecord} {r : ResultRecord}
    (h : r ∈ processTable t tbl) : r ∈ filterThreshold t tbl := by
  unfold processTable at h
  rw [List.mem_insertionSort] at h
  have h2 := mem_of_mem_dropDupAux _ _ h
  rwa [List.mem_insertionSort] at h2

theorem countP_dropDupAux (k : String × Int × String) :
    ∀ (l : List ResultRecord) (seen : List (String × Int × String)),
      (dropDupAux seen l).countP (fun r => decide (keyOf r = k)) =
        if k ∈ seen then 0
        else min 1 (l.countP (fun r => decide (keyOf r = k))) := by
  intro l
  induction l with
  | nil =>
    intro seen
    by_cases hk : k ∈ seen <;> simp [dropDupAux, hk]
  | cons a rs ih =>
    intro seen
    by_cases ha : keyOf a ∈ seen
    · rw [dropDupAux, if_pos ha, ih seen]
      by_cases hk : k ∈ seen
      · rw [if_pos hk, if_pos hk]
      · have hak : ¬ (keyOf a = k) := fun h => hk (h ▸ ha)
        rw [if_neg hk, if_neg hk, List.countP_cons]
        simp [hak]
    · rw [dropDupAux, if_neg ha, List.countP_cons, ih (keyOf a :: seen)]
      by_cases hk : k ∈ seen
      · have hak : ¬ (keyOf a = k) := fun h => ha (h ▸ hk)
        rw [if_pos (List.mem_cons_of_mem _ hk), if_pos hk]
        simp [hak]
      · by_cases hak : keyOf a = k
        · rw [if_pos (hak ▸ List.mem_cons_self _ _), if_neg hk, List.countP_cons]
          simp only [hak]
          simp
        · have : k ∉ keyOf a :: seen := by
            intro h
            rcases List.mem_cons.mp h with h | h
            · exact hak h.symm
            · exact hk h
          rw [if_neg this, if_neg hk, List.countP_cons]
          simp [hak]

theorem find_of_mem_dropDupAux {r : ResultRecord} :
    ∀ (l : List ResultRecord) (seen : List (String × Int × String)),
      r ∈ dropDupAux seen l →
        keyOf r ∉ seen ∧
          l.find? (fun x => decide (keyOf x = keyOf r)) = some r := by
  intro l
  induction l with
  | nil => intro seen h; simp [dropDupAux] at h
  | cons a rs ih =>
    intro seen h
    by_cases ha : keyOf a ∈ seen
    · rw [dropDupAux, if_pos ha] at h
      obtain ⟨hns, hfind⟩ := ih seen h
      have hak : ¬ (keyOf a = keyOf r) := fun hh => hns (hh ▸ ha)
      refine ⟨hns, ?_⟩
      rw [List.find?_cons_of_neg _ (by simpa using hak)]
      exact hfind
    · rw [dropDupAux, if_neg ha] at h
      rcases List.mem_cons.mp h with rfl | h
      · exact ⟨ha, List.find?_cons_of_pos _ (by simp)⟩
      · obtain ⟨hns, hfind⟩ := ih (keyOf a :: seen) h
        have hra : keyOf r ≠ keyOf a := fun hh =>
          hns (hh ▸ List.mem_cons_self _ _)
        refine ⟨fun hh => hns (List.mem_cons_of_mem _ hh), ?_⟩
        rw [List.find?_cons_of_neg _ (by simpa using fun hh => hra hh.symm)]
        exact hfind

theorem rel_of_sorted_find {α : Type} {r : α → α → Prop} {l : List α}
    (hs : List.Pairwise r l) {p : α → Bool} {x : α}
    (hf : l.find? p = some x) :
    ∀ y ∈ l, p y = true → y = x ∨ r x y := by
  rw [List.find?_eq_some] at hf
  obtain ⟨hpx, as, bs, rfl, hnot⟩ := hf
  intro y hy hpy
  rcases List.mem_append.mp hy with hy | hy
  · exact absurd hpy (by simpa using hnot y hy)
  · rcases List.mem_cons.mp hy with rfl | hy
    · exact Or.inl rfl
    · right
      have h2 := (List.pairwise_append.mp hs).2.1
      exact (List.pairwise_cons.mp h2).1 y hy

theorem selectIterator_of_mem_choices {s : String} (h : s ∈ featureChoices) :
    selectIterator s = Except.ok GtfIterator.transcript ∨
      selectIterator s = Except.ok GtfIterator.flatGene := by
  have h2 : s = "transcript" ∨ s = "gene" := by simpa [featureChoices] using h
  rcases h2 with rfl | rfl
  · exact Or.inl rfl
  · exact Or.inr rfl

theorem mainRun_exits_of_no_source {o : Options}
    (hf : o.feature ∈ featureChoices)
    (hsel : selectSignalSource o = none)
    (importOk : Bool) (compute : ComputeFn) :
    mainRun o importOk compute = MainOutcome.exited 1 := by
  rcases selectIterator_of_mem_choices hf with h | h <;>
    rw [mainRun, h, hsel]

/-- C5: when none of the BAM, plus-strand BigWig, or BED options is supplied
(and the feature value is one the parser admits), `main` reports the missing
signal source and exits with status 1, whatever the pool situation and the
FDR computation are — so no result records are produced. -/
theorem no_signal_source_exits (o : Options)
    (hf : o.feature ∈ featureChoices) (hb : o.bam = none)
    (hw : o.plus_wig = none) (hd : o.bedfile = none) :
    ∀ (importOk : Bool) (compute : ComputeFn),
      mainRun o importOk compute = MainOutcome.exited 1 := by
  intro importOk compute
  have hsel : selectSignalSource o = none := by
    unfold selectSignalSource
    rw [hb, hw, hd]
  exact mainRun_exits_of_no_source hf hsel importOk compute

theorem no_signal_source_exits_witness :
    mainRun
        { bam := none, plus_wig := none, minus_wig := none, bedfile := none,
          spread := 15, rands := 100, threshold := mkRat 1 20,
          feature := "gene", proc := none, centre := false }
        true (fun _ _ _ _ _ => []) = MainOutcome.exited 1 :=
  no_signal_source_exits _ (by decide) rfl rfl rfl true (fun _ _ _ _ _ => [])

/-- C9: a minus-strand BigWig alone (no BAM, no plus-strand BigWig, no BED)
is never used as a signal source: the source-selection chain yields nothing
and `main` exits with status 1. -/
theorem minus_wig_alone_exits (o : Options) (m : String)
    (hf : o.feature ∈ featureChoices) (hb : o.bam = none)
    (hw : o.plus_wig = none) (hd : o.bedfile = none)
    (_hm : o.minus_wig = some m) :
    selectSignalSource o = none ∧
      ∀ (importOk : Bool) (compute : ComputeFn),
        mainRun o importOk compute = MainOutcome.exited 1 := by
  have hsel : selectSignalSource o = none := by
    unfold selectSignalSource
    rw [hb, hw, hd]
  exact ⟨hsel, fun importOk compute =>
    mainRun_exits_of_no_source hf hsel importOk compute⟩

theorem minus_wig_alone_exits_witness :
    selectSignalSource
        { bam := none, plus_wig := none, minus_wig := some "m.bw",
          bedfile := none, spread := 15, rands := 100,
          threshold := mkRat 1 20, feature := "gene", proc := none,
          centre := false } = none ∧
      ∀ (importOk : Bool) (compute : ComputeFn),
        mainRun
          { bam := none, plus_wig := none, minus_wig := some "m.bw",
            bedfile := none, spread := 15, rands := 100,
            threshold := mkRat 1 20, feature := "gene", proc := none,
            centre := false }
          importOk compute = MainOutcome.exited 1 :=
  minus_wig_alone_exits _ "m.bw" (by decide) rfl rfl rfl rfl

/-- C10: the `raise ValueError("Unknown feature type ...")` branch is
unreachable for parser-admitted feature values: every value in the parser's
`choices` list takes one of the two valid iterator branches. -/
theorem unknown_feature_unreachable (s : String) (h : s ∈ featureChoices) :
    (∃ it, selectIterator s = Except.ok it) ∧
      ∀ msg, selectIterator s ≠ Except.error msg := by
  rcases selectIterator_of_mem_choices h with h2 | h2
  · exact ⟨⟨GtfIterator.transcript, h2⟩, fun msg hmsg => by
      rw [h2] at hmsg; exact Except.noConfusion hmsg⟩
  · exact ⟨⟨GtfIterator.flatGene, h2⟩, fun msg hmsg => by
      rw [h2] at hmsg; exact Except.noConfusion hmsg⟩

theorem unknown_feature_unreachable_witness :
    ((∃ it, selectIterator "gene" = Except.ok it) ∧
      ∀ msg, selectIterator "gene" ≠ Except.error msg) ∧
    ((∃ it, selectIterator "transcript" = Except.ok it) ∧
      ∀ msg, selectIterator "transcript" ≠ Except.error msg) :=
  ⟨unknown_feature_unreachable "gene" (by decide),
    unknown_feature_unreachable "transcript" (by decide)⟩

/-- C8: signal-source precedence of the `if/elif` chain: a BAM file wins over
everything; otherwise a plus-strand BigWig (with the optional minus-strand
BigWig alongside) wins over BED; the BED file is used only when neither a BAM
nor a plus-strand BigWig is given. -/
theorem signal_source_precedence (o : Options) :
    (∀ b, o.bam = some b →
      selectSignalSource o = some (SignalGetter.bamGetter b o.centre)) ∧
    (∀ p, o.bam = none → o.plus_wig = some p →
      selectSignalSource o = some (SignalGetter.wigGetter p o.minus_wig)) ∧
    (∀ f, o.bam = none → o.plus_wig = none → o.bedfile = some f →
      selectSignalSource o = some (SignalGetter.bedGetter f)) ∧
    (∀ f, selectSignalSource o = some (SignalGetter.bedGetter f) →
      o.bam = none ∧ o.plus_wig = none ∧ o.bedfile = some f) := by
  refine ⟨?_, ?_, ?_, ?_⟩
  · intro b hb
    unfold selectSignalSource
    rw [hb]
  · intro p hb hp
    unfold selectSignalSource
    rw [hb, hp]
  · intro f hb hp hf
    unfold selectSignalSource
    rw [hb, hp, hf]
  · intro f hsel
    unfold selectSignalSource at hsel
    cases hb : o.bam with
    | some b => rw [hb] at hsel; simp at hsel
    | none =>
      rw [hb] at hsel
      cases hp : o.plus_wig with
      | some p => rw [hp] at hsel; simp at hsel
      | none =>
        rw [hp] at hsel
        cases hf : o.bedfile with
        | some f2 =>
          rw [hf] at hsel
          simp at hsel
          exact ⟨rfl, rfl, hsel ▸ rfl⟩
        | none => rw [hf] at hsel; simp at hsel

theorem signal_source_precedence_witness :
    selectSignalSource
        { bam := some "a.bam", plus_wig := some "p.bw",
          minus_wig := some "m.bw", bedfile := some "f.bed", spread := 15,
          rands := 100, threshold := mkRat 1 20, feature := "gene",
          proc := none, centre := false } =
      some (SignalGetter.bamGetter "a.bam" false) :=
  (signal_source_precedence _).1 "a.bam" rfl

/-- C6: with a randomisation count of 0 or a negative spread (and an
otherwise valid configuration), the FDR entry point raises a fatal
configuration error; the outcome is the same for every injected computation,
so no FDR values are computed first.  The guard is modelled from the spec,
the `iCLIP` library not being part of the repository sources. -/
theorem zero_rands_or_neg_spread_fatal (o : Options) (g : SignalGetter)
    (hf : o.feature ∈ featureChoices) (hg : selectSignalSource o = some g)
    (hr : o.rands = 0 ∨ o.spread < 0) :
    ∀ (importOk : Bool) (compute : ComputeFn),
      mainRun o importOk compute =
        MainOutcome.raised
          "fatal configuration error: FDR undefined / smoothing undefined" := by
  intro importOk compute
  rcases selectIterator_of_mem_choices hf with h | h <;>
    simp [mainRun, h, hg, get_crosslink_fdr_by_randomisation, hr]

theorem zero_rands_or_neg_spread_fatal_witness :
    mainRun
        { bam := some "a.bam", plus_wig := none, minus_wig := none,
          bedfile := none, spread := 15, rands := 0,
          threshold := mkRat 1 20, feature := "gene", proc := none,
          centre := false }
        true (fun _ _ _ _ _ => []) =
      MainOutcome.raised
        "fatal configuration error: FDR undefined / smoothing undefined" :=
  zero_rands_or_neg_spread_fatal
    { bam := some "a.bam", plus_wig := none, minus_wig := none,
      bedfile := none, spread := 15, rands := 0,
      threshold := mkRat 1 20, feature := "gene", proc := none,
      centre := false }
    (SignalGetter.bamGetter "a.bam" false)
    (by decide) rfl (Or.inl rfl) true (fun _ _ _ _ _ => [])

/-- C7: a worker pool exists only when a process count is configured and the
parallel runtime imports; with no process count, or with the import failing,
the FDR computation is invoked with no pool.  On a valid configuration the
run finishes with the table computed from exactly the pool
`setupPool o.proc importOk`. -/
theorem pool_only_when_configured (o : Options) (importOk : Bool)
    (it : GtfIterator) (g : SignalGetter)
    (hit : selectIterator o.feature = Except.ok it)
    (hg : selectSignalSource o = some g)
    (hr : ¬ (o.rands = 0 ∨ o.spread < 0)) :
    (∀ compute : ComputeFn,
        mainRun o importOk compute =
          MainOutcome.finished (processTable o.threshold
            (compute it g o.rands o.spread (setupPool o.proc importOk)))) ∧
    ((o.proc = none ∨ importOk = false) → setupPool o.proc importOk = none) ∧
    (∀ pl : WorkerPool, setupPool o.proc importOk = some pl →
      (∃ n, o.proc = some n) ∧ importOk = true) := by
  refine ⟨?_, ?_, ?_⟩
  · intro compute
    simp [mainRun, hit, hg, get_crosslink_fdr_by_randomisation, hr]
  · intro hp
    unfold setupPool
    rcases hp with hp | hp
    · rw [hp]
    · rw [hp]
      cases o.proc <;> simp
  · intro pl hpl
    unfold setupPool at hpl
    cases hproc : o.proc with
    | none => rw [hproc] at hpl; exact Option.noConfusion hpl
    | some n =>
      rw [hproc] at hpl
      cases importOk with
      | false => simp at hpl
      | true => exact ⟨⟨n, rfl⟩, rfl⟩

theorem pool_only_when_configured_witness :
    (∀ compute : ComputeFn,
        mainRun
          { bam := some "a.bam", plus_wig := none, minus_wig := none,
            bedfile := none, spread := 15, rands := 100,
            threshold := mkRat 1 20, feature := "gene", proc := none,
            centre := false }
          true compute =
          MainOutcome.finished (processTable (mkRat 1 20)
            (compute GtfIterator.flatGene
              (SignalGetter.bamGetter "a.bam" false) 100 15
              (setupPool none true)))) ∧
    ((none = (none : Option Int) ∨ true = false) → setupPool none true = none) ∧
    (∀ pl : WorkerPool, setupPool none true = some pl →
      (∃ n, (none : Option Int) = some n) ∧ true = true) :=
  pool_only_when_configured _ true GtfIterator.flatGene
    (SignalGetter.bamGetter "a.bam" false) rfl rfl (by decide)

/-- C3: a record appears in the processed output only when its FDR is at most
the threshold, and any record with FDR above the threshold is already gone
from the filtered table, i.e. before deduplication and emission. -/
theorem threshold_filter_sound (t : ℚ) (tbl : List ResultRecord)
    (r : ResultRecord) :
    (r ∈ processTable t tbl → r.fdr ≤ t) ∧
      (t < r.fdr → r ∉ filterThreshold t tbl) := by
  constructor
  · intro h
    have h2 := mem_filterThreshold_of_mem_processTable h
    have h3 := (List.mem_filter.mp h2).2
    simpa using h3
  · intro hlt hmem
    have h3 := (List.mem_filter.mp hmem).2
    simp at h3
    exact absurd h3 (not_le.mpr hlt)

theorem threshold_filter_sound_witness :
    (⟨"chr1", 100, mkRat 1 100, mkRat 5 1, "+"⟩ : ResultRecord).fdr ≤
      mkRat 1 20 :=
  (threshold_filter_sound (mkRat 1 20)
      [⟨"chr1", 100, mkRat 1 100, mkRat 5 1, "+"⟩]
      ⟨"chr1", 100, mkRat 1 100, mkRat 5 1, "+"⟩).1 (by decide)

/-- C2: every emitted row consists of exactly the columns contig, start, end,
FDR-score, depth, strand, in this order, with `end = start + 1` and the
FDR-score column holding `-log10` of the record's FDR; the CSV output is the
tab-separated rows, one line per record and no header line. -/
theorem emitted_row_shape (t : ℚ) (tbl : List ResultRecord)
    (showScore : ℝ → String) (showDepth : ℚ → String) :
    emit (processTable t tbl) =
      (processTable t tbl).map (fun r =>
        { contig := r.contig, start := r.start, stop := r.start + 1,
          score := neglog10 r.fdr, depth := r.depth, strand := r.strand }) ∧
    toCsv (renderRow showScore showDepth) (emit (processTable t tbl)) =
      String.join ((processTable t tbl).map (fun r =>
        String.intercalate "\t"
          [r.contig, toString r.start, toString (r.start + 1),
            showScore (neglog10 r.fdr), showDepth r.depth, r.strand]
          ++ "\n")) := by
  refine ⟨rfl, ?_⟩
  unfold toCsv emit
  rw [List.map_map]
  rfl

/-- C4: the processed table is sorted in ascending lexicographic order of
(contig, start, strand), whatever the order of the incoming result table —
the statement holds for every input table, so it is independent of the order
in which intervals were processed. -/
theorem output_sorted_by_key (t : ℚ) (tbl : List ResultRecord) :
    (processTable t tbl).Sorted keyLe := by
  unfold processTable
  exact List.sorted_insertionSort keyLe _

/-- C1: after thresholding, whenever two or more records share a
(contig, start, strand) key, exactly one record with that key appears in the
output; it belongs to the thresholded group, has the minimum FDR of that
group, and among records tying that minimum FDR it has the maximum depth. -/
theorem dedup_keeps_min_fdr_max_depth (t : ℚ) (tbl : List ResultRecord)
    (k : String × Int × String)
    (h2 : 2 ≤ ((filterThreshold t tbl).filter
        (fun r => decide (keyOf r = k))).length) :
    ((processTable t tbl).filter (fun r => decide (keyOf r = k))).length = 1 ∧
    ∃ r, r ∈ processTable t tbl ∧ keyOf r = k ∧ r ∈ filterThreshold t tbl ∧
      (∀ r' ∈ filterThreshold t tbl, keyOf r' = k → r.fdr ≤ r'.fdr) ∧
      (∀ r' ∈ filterThreshold t tbl, keyOf r' = k →
        r'.fdr = r.fdr → r'.depth ≤ r.depth) := by
  have hSperm : (List.insertionSort fdrDepthLe (filterThreshold t tbl)).Perm
      (filterThreshold t tbl) := List.perm_insertionSort _ _
  have hScount : (List.insertionSort fdrDepthLe (filterThreshold t tbl)).countP
      (fun r => decide (keyOf r = k)) =
      (filterThreshold t tbl).countP (fun r => decide (keyOf r = k)) :=
    hSperm.countP_eq _
  have hFcount : 2 ≤ (filterThreshold t tbl).countP
      (fun r => decide (keyOf r = k)) := by
    rw [List.countP_eq_length_filter]
    exact h2
  have hDcount : (drop_duplicates (List.insertionSort fdrDepthLe
      (filterThreshold t tbl))).countP (fun r => decide (keyOf r = k)) = 1 := by
    unfold drop_duplicates
    rw [countP_dropDupAux k _ [], if_neg (by simp), hScount]
    omega
  have hPperm : (processTable t tbl).Perm
      (drop_duplicates (List.insertionSort fdrDepthLe
        (filterThreshold t tbl))) := by
    unfold processTable
    exact List.perm_insertionSort _ _
  have hPcount : (processTable t tbl).countP
      (fun r => decide (keyOf r = k)) = 1 := by
    rw [hPperm.countP_eq]
    exact hDcount
  refine ⟨by rw [← List.countP_eq_length_filter]; exact hPcount, ?_⟩
  have hpos : 0 < (processTable t tbl).countP (fun r => decide (keyOf r = k)) := by
    omega
  obtain ⟨r, hrP, hpr⟩ := List.countP_pos_iff.mp hpos
  have hk : keyOf r = k := of_decide_eq_true hpr
  have hrD : r ∈ drop_duplicates (List.insertionSort fdrDepthLe
      (filterThreshold t tbl)) := by
    unfold processTable at hrP
    exact (List.mem_insertionSort _).mp hrP
  obtain ⟨-, hfind⟩ := find_of_mem_dropDupAux _ [] hrD
  simp only [hk] at hfind
  have hsorted : List.Pairwise fdrDepthLe
      (List.insertionSort fdrDepthLe (filterThreshold t tbl)) :=
    List.sorted_insertionSort _ _
  have hmin := rel_of_sorted_find hsorted hfind
  have hrF : r ∈ filterThreshold t tbl :=
    hSperm.mem_iff.mp (mem_of_mem_dropDupAux _ _ hrD)
  refine ⟨r, hrP, hk, hrF, ?_, ?_⟩
  · intro r' hr' hk'
    have hr'S : r' ∈ List.insertionSort fdrDepthLe (filterThreshold t tbl) :=
      hSperm.mem_iff.mpr hr'
    rcases hmin r' hr'S (decide_eq_true hk') with rfl | hle
    · exact le_refl _
    · rcases hle with hlt | ⟨heq, _⟩
      · exact le_of_lt hlt
      · exact le_of_eq heq
  · intro r' hr' hk' hfd
    have hr'S : r' ∈ List.insertionSort fdrDepthLe (filterThreshold t tbl) :=
      hSperm.mem_iff.mpr hr'
    rcases hmin r' hr'S (decide_eq_true hk') with rfl | hle
    · exact le_refl _
    · rcases hle with hlt | ⟨-, hdep⟩
      · exact absurd hfd (ne_of_gt hlt)
      · exact hdep

theorem dedup_keeps_min_fdr_max_depth_witness :
    ((processTable (mkRat 1 20)
        [⟨"chr1", 100, mkRat 1 100, mkRat 5 1, "+"⟩,
          ⟨"chr1", 100, mkRat 1 100, mkRat 9 1, "+"⟩]).filter
      (fun r => decide (keyOf r = ("chr1", 100, "+")))).length = 1 ∧
    ∃ r, r ∈ processTable (mkRat 1 20)
          [⟨"chr1", 100, mkRat 1 100, mkRat 5 1, "+"⟩,
            ⟨"chr1", 100, mkRat 1 100, mkRat 9 1, "+"⟩] ∧
        keyOf r = ("chr1", 100, "+") ∧
        r ∈ filterThreshold (mkRat 1 20)
          [⟨"chr1", 100, mkRat 1 100, mkRat 5 1, "+"⟩,
            ⟨"chr1", 100, mkRat 1 100, mkRat 9 1, "+"⟩] ∧
        (∀ r' ∈ filterThreshold (mkRat 1 20)
            [⟨"chr1", 100, mkRat 1 100, mkRat 5 1, "+"⟩,
              ⟨"chr1", 100, mkRat 1 100, mkRat 9 1, "+"⟩],
          keyOf r' = ("chr1", 100, "+") → r.fdr ≤ r'.fdr) ∧
        (∀ r' ∈ filterThreshold (mkRat 1 20)
            [⟨"chr1", 100, mkRat 1 100, mkRat 5 1, "+"⟩,
              ⟨"chr1", 100, mkRat 1 100, mkRat 9 1, "+"⟩],
          keyOf r' = ("chr1", 100, "+") →
            r'.fdr = r.fdr → r'.depth ≤ r.depth) :=
  dedup_keeps_min_fdr_max_depth (mkRat 1 20)
    [⟨"chr1", 100, mkRat 1 100, mkRat 5 1, "+"⟩,
      ⟨"chr1", 100, mkRat 1 100, mkRat 9 1, "+"⟩]
    ("chr1", 100, "+") (by decide)

end SigBases
